import Mathlib

/-!
Verification of the IR generation context of the solidity code generator
(`libsolidity/codegen/ir/IRGenerationContext.h`).

The header declares the classes `IRFunctionGenerationQueue` and
`IRGenerationContext`.  Method bodies that are defined inline in the header
are embedded directly from the source; method bodies that live in the
corresponding `.cpp` file (not part of the sources) are modelled from the
specification and are marked as such in their doc comments.

AST nodes (function definitions, variable declarations, contract
definitions) are consumed by stable identity only; we model each node kind
as a structure carrying its unique AST node id together with the few
attributes the context reads (source-level name, signature).  Pointer
identity of AST nodes corresponds to distinctness of node ids.
-/

namespace IRGen

/-! ### Decimal rendering of natural numbers

The generated names embed AST node ids and counters rendered in decimal
(`std::to_string`).  We model the rendering explicitly and prove it
injective via an explicit decoder. -/

/-- Decimal digits of a natural number, most significant first (recursive
reference version used in proofs). -/
def natDigitsSpec (n : Nat) : List Char :=
  if _h : n < 10 then [Nat.digitChar n]
  else natDigitsSpec (n / 10) ++ [Nat.digitChar (n % 10)]
  termination_by n
  decreasing_by
    exact Nat.div_lt_self (Nat.pos_of_ne_zero (by omega)) (by omega)

/-- Fuel-driven accumulator core of the decimal rendering (structurally
recursive, so that it evaluates definitionally; the Lean core `Nat.toDigits`
follows the same pattern). -/
def natDigitsCore : Nat → Nat → List Char → List Char
  | _, 0, acc => acc
  | n, fuel + 1, acc =>
    if n < 10 then Nat.digitChar n :: acc
    else natDigitsCore (n / 10) fuel (Nat.digitChar (n % 10) :: acc)

/-- Decimal digits of a natural number, most significant first, as
characters (the rendering `std::to_string` produces). -/
def natDigits (n : Nat) : List Char :=
  natDigitsCore n (n + 1) []

/-- Decoder for decimal digit strings; used to prove `natDigits` injective. -/
def decodeDigits (l : List Char) : Nat :=
  l.foldl (fun a c => 10 * a + (c.toNat - 48)) 0

/-! ### AST declarations (external collaborators, consumed by identity) -/

/-- A function definition AST node: unique node id, source-level name and a
signature key (used by virtual override resolution; two declarations
override each other iff their signatures agree). -/
structure FunctionDefinition where
  name : String
  id : Nat
  sig : Nat
deriving DecidableEq

/-- A variable declaration AST node: unique node id and source-level name. -/
structure VariableDeclaration where
  name : String
  id : Nat
deriving DecidableEq

/-- A contract definition AST node.  `linearizedOverrideChain` is the
flattened list of function declarations of the contract's linearized base
hierarchy, most-derived first, as walked by virtual resolution. -/
structure ContractDefinition where
  id : Nat
  linearizedOverrideChain : List FunctionDefinition
deriving DecidableEq

/-- Revert-string verbosity configuration (`RevertStrings` in
`libsolidity/interface/DebugSettings.h`). -/
inductive RevertStrings where
  | strip
  | debug
deriving DecidableEq

/-- The internal-error conditions of the generation context (thrown via
`solAssert`; named as in the specification's error taxonomy). -/
inductive GenError where
  | EmptyQueueError
  | NoMostDerivedContractError
  | DuplicateLocalError
  | UnknownLocalError
  | UnknownStateVariableError
  | NoOverriderFoundError
deriving DecidableEq

/-- Purpose discriminator of the name table: a generated name either names a
function body or the synthesized accessor of a state variable. -/
inductive NamePurpose where
  | functionBody
  | accessor
deriving DecidableEq

/-- The IR-level handle of one local variable (class `IRVariable`); we track
the allocated IR name it wraps. -/
structure IRVariable where
  name : String
deriving DecidableEq

/-! ### IRFunctionGenerationQueue

`IRFunctionGenerationQueue` stores `FunctionDefinition const*` in a
`std::set` (header lines 52-65).  We model the set of pointers as a
strictly sorted list of node ids: `std::set::insert` becomes sorted
insertion without duplicates, and `*begin()` becomes the head. -/

/-- Ordered insertion without duplicates (`std::set::insert`). -/
def setInsert (x : Nat) : List Nat → List Nat
  | [] => [x]
  | y :: ys => if x < y then x :: y :: ys else if x = y then y :: ys else y :: setInsert x ys

/-- The function generation queue: a thin wrapper over a collection of
function definitions with queue-like interface, no element order guarantee
and no duplicates (header lines 47-65). -/
structure IRFunctionGenerationQueue where
  m_definitions : List Nat
deriving DecidableEq

namespace IRFunctionGenerationQueue

/-- `void push(FunctionDefinition const* _definition) { m_definitions.insert(_definition); }` -/
def push (q : IRFunctionGenerationQueue) (d : Nat) : IRFunctionGenerationQueue :=
  ⟨setInsert d q.m_definitions⟩

/-- Modelled from the spec: the body of `IRFunctionGenerationQueue::pop` is in
the missing `IRGenerationContext.cpp`; per the spec it fails with
`EmptyQueueError` on an empty queue and otherwise removes and returns one
element (for `std::set`, `*begin()`, i.e. the least pointer). -/
def pop (q : IRFunctionGenerationQueue) :
    Except GenError (Nat × IRFunctionGenerationQueue) :=
  match q.m_definitions with
  | [] => .error .EmptyQueueError
  | d :: rest => .ok (d, ⟨rest⟩)

/-- `void clear() { m_definitions.clear(); }` -/
def clear (_q : IRFunctionGenerationQueue) : IRFunctionGenerationQueue := ⟨[]⟩

/-- `bool empty() const { return m_definitions.empty(); }` -/
def empty (q : IRFunctionGenerationQueue) : Bool := q.m_definitions.isEmpty

/-- `size_t size() const { return m_definitions.size(); }` -/
def size (q : IRFunctionGenerationQueue) : Nat := q.m_definitions.length

end IRFunctionGenerationQueue

/-- A queue with no pending definitions (initial state). -/
def emptyQueue : IRFunctionGenerationQueue := ⟨[]⟩

/-! ### IRGenerationContext state -/

/-- Association-list lookup keyed by `(node id, purpose)` (the name table). -/
def lookupName (table : List ((Nat × NamePurpose) × String)) (k : Nat × NamePurpose) :
    Option String :=
  match table with
  | [] => none
  | (k', n) :: rest => if k' = k then some n else lookupName rest k

/-- Association-list lookup keyed by node id (local-variable map). -/
def lookupLocal (m : List (Nat × IRVariable)) (k : Nat) : Option IRVariable :=
  match m with
  | [] => none
  | (k', v) :: rest => if k' = k then some v else lookupLocal rest k

/-- Association-list lookup keyed by node id (state-variable map). -/
def lookupStorage (m : List (Nat × (Nat × Nat))) (k : Nat) : Option (Nat × Nat) :=
  match m with
  | [] => none
  | (k', v) :: rest => if k' = k then some v else lookupStorage rest k

/-- Contextual information during IR generation (class `IRGenerationContext`,
header lines 70-151).  Maps keyed by AST node pointers become association
lists keyed by node ids, newest entry first; the `u256` storage slot is a
natural number (it is only stored and compared, never computed with).
`m_nameTable` models the lazily populated name table of the memoized
enqueue path; `m_dispatchCache` the set of dispatch shapes already
generated into the utility collector. -/
structure IRGenerationContext where
  m_revertStrings : RevertStrings
  m_mostDerivedContract : Option ContractDefinition
  m_localVariables : List (Nat × IRVariable)
  m_stateVariables : List (Nat × (Nat × Nat))
  m_nameTable : List ((Nat × NamePurpose) × String)
  m_dispatchCache : List (Nat × Nat)
  m_functionGenerationQueue : IRFunctionGenerationQueue
  m_varCounter : Nat
deriving DecidableEq

/-- A freshly constructed context: empty maps, empty queue,
`m_varCounter = 0`, no most derived contract. -/
def initialContext (rs : RevertStrings) : IRGenerationContext :=
  ⟨rs, none, [], [], [], [], emptyQueue, 0⟩

namespace IRGenerationContext

/-! ### Name allocation -/

/-- Modelled from the spec: the body of
`IRGenerationContext::functionName(FunctionDefinition const&)` is in the
missing `IRGenerationContext.cpp`; per the spec it is a deterministic name
derived from the declaration's source identity, discriminated by the unique
node id so textually identical source names stay distinct
(`"fun_" + name + "_" + id`). -/
def functionName (f : FunctionDefinition) : String :=
  String.mk (['f', 'u', 'n', '_'] ++ f.name.data ++ '_' :: natDigits f.id)

/-- Modelled from the spec: the body of
`IRGenerationContext::functionName(VariableDeclaration const&)` is in the
missing `IRGenerationContext.cpp`; per the spec it names the synthesized
accessor of a state variable, following the same uniqueness rule
(`"getter_fun_" + name + "_" + id`). -/
def functionNameOfAccessor (v : VariableDeclaration) : String :=
  String.mk (['g', 'e', 't', 't', 'e', 'r', '_', 'f', 'u', 'n', '_'] ++
    v.name.data ++ '_' :: natDigits v.id)

/-- Modelled from the spec: the body of `IRGenerationContext::newYulVariable`
is in the missing `IRGenerationContext.cpp`; per the spec it returns a fixed
prefix plus a monotonic counter seeded at 0 (field `m_varCounter`, header
line 150), incrementing the counter unconditionally. -/
def newYulVariable (ctx : IRGenerationContext) : String × IRGenerationContext :=
  (String.mk ('_' :: natDigits ctx.m_varCounter), { ctx with m_varCounter := ctx.m_varCounter + 1 })

/-- The name of the shared internal dispatch helper for one (input-arity,
output-arity) shape: `"dispatch_internal_in_" + in + "_out_" + out`. -/
def internalDispatchName (inArity outArity : Nat) : String :=
  String.mk (['d', 'i', 's', 'p', 'a', 't', 'c', 'h', '_', 'i', 'n', 't', 'e', 'r',
    'n', 'a', 'l', '_', 'i', 'n', '_'] ++ natDigits inArity ++
    '_' :: 'o' :: 'u' :: 't' :: '_' :: natDigits outArity)

/-- Modelled from the spec: the body of `IRGenerationContext::internalDispatch`
is in the missing `IRGenerationContext.cpp`; per the spec it returns the
shape-determined dispatcher name, generating and registering the dispatcher
with the utility-function collaborator only on the first request for that
shape (memoized per shape). -/
def internalDispatch (ctx : IRGenerationContext) (inArity outArity : Nat) :
    String × IRGenerationContext :=
  if (inArity, outArity) ∈ ctx.m_dispatchCache then
    (internalDispatchName inArity outArity, ctx)
  else
    (internalDispatchName inArity outArity,
      { ctx with m_dispatchCache := (inArity, outArity) :: ctx.m_dispatchCache })

/-! ### Function enqueueing -/

/-- Modelled from the spec: the body of
`IRGenerationContext::enqueueFunctionForCodeGeneration` is in the missing
`IRGenerationContext.cpp`; per the spec, if `(decl, "function")` already has
a generated name it is returned unchanged with no push, otherwise a fresh
name is allocated, recorded in the name table, the declaration is pushed
onto the function generation queue, and the new name is returned. -/
def enqueueFunctionForCodeGeneration (ctx : IRGenerationContext) (f : FunctionDefinition) :
    String × IRGenerationContext :=
  match lookupName ctx.m_nameTable (f.id, NamePurpose.functionBody) with
  | some n => (n, ctx)
  | none =>
    let n := functionName f
    (n, { ctx with
            m_nameTable := ((f.id, NamePurpose.functionBody), n) :: ctx.m_nameTable,
            m_functionGenerationQueue := ctx.m_functionGenerationQueue.push f.id })

/-- `void setMostDerivedContract(ContractDefinition const& _mostDerivedContract)`
(header lines 100-103): plain overwrite of the stored pointer. -/
def setMostDerivedContract (ctx : IRGenerationContext) (c : ContractDefinition) :
    IRGenerationContext :=
  { ctx with m_mostDerivedContract := some c }

/-- Modelled from the spec: the body of
`IRGenerationContext::mostDerivedContract` is in the missing
`IRGenerationContext.cpp`; per the spec it fails with
`NoMostDerivedContractError` when no most derived contract has been set. -/
def mostDerivedContract (ctx : IRGenerationContext) : Except GenError ContractDefinition :=
  match ctx.m_mostDerivedContract with
  | none => .error .NoMostDerivedContractError
  | some c => .ok c

/-- Modelled from the spec: virtual resolution walks the concrete type's
linearized override chain, most-derived first, and returns the first
declaration that overrides `d` (same signature), including `d` itself if it
is already the most derived. -/
def resolveVirtual (c : ContractDefinition) (d : FunctionDefinition) :
    Option FunctionDefinition :=
  c.linearizedOverrideChain.find? (fun f => f.sig == d.sig)

/-- Modelled from the spec: the body of
`IRGenerationContext::enqueueVirtualFunctionForCodeGeneration` is in the
missing `IRGenerationContext.cpp`; per the spec it fails with
`NoMostDerivedContractError` when no most derived contract is set, and
otherwise resolves the declaration through the virtual dispatch resolver
and delegates to `enqueueFunctionForCodeGeneration` (an unresolvable
declaration would violate the front-end invariant; the internal assertion
for that case is `NoOverriderFoundError`). -/
def enqueueVirtualFunctionForCodeGeneration (ctx : IRGenerationContext)
    (d : FunctionDefinition) : Except GenError (String × IRGenerationContext) :=
  match ctx.m_mostDerivedContract with
  | none => .error .NoMostDerivedContractError
  | some c =>
    match resolveVirtual c d with
    | none => .error .NoOverriderFoundError
    | some d' => .ok (enqueueFunctionForCodeGeneration ctx d')

/-! ### Variable registry -/

/-- `bool isLocalVariable(VariableDeclaration const& _varDecl) const`
(header line 108). -/
def isLocalVariable (ctx : IRGenerationContext) (v : VariableDeclaration) : Bool :=
  (lookupLocal ctx.m_localVariables v.id).isSome

/-- Modelled from the spec: the body of `IRGenerationContext::addLocalVariable`
is in the missing `IRGenerationContext.cpp`; per the spec it fails with
`DuplicateLocalError` when the declaration is already registered, and
otherwise allocates an IR-variable handle via the name allocator, stores it
in `m_localVariables` (header line 145) and returns it. -/
def addLocalVariable (ctx : IRGenerationContext) (v : VariableDeclaration) :
    Except GenError (IRVariable × IRGenerationContext) :=
  match lookupLocal ctx.m_localVariables v.id with
  | some _ => .error .DuplicateLocalError
  | none =>
    let p := newYulVariable ctx
    let hVar : IRVariable := ⟨p.1⟩
    .ok (hVar, { p.2 with m_localVariables := (v.id, hVar) :: p.2.m_localVariables })

/-- Modelled from the spec: the body of `IRGenerationContext::localVariable`
is in the missing `IRGenerationContext.cpp`; per the spec it fails with
`UnknownLocalError` when the declaration was never added, and is a pure
lookup otherwise. -/
def localVariable (ctx : IRGenerationContext) (v : VariableDeclaration) :
    Except GenError IRVariable :=
  match lookupLocal ctx.m_localVariables v.id with
  | none => .error .UnknownLocalError
  | some hVar => .ok hVar

/-- Modelled from the spec: the body of `IRGenerationContext::addStateVariable`
is in the missing `IRGenerationContext.cpp`; per the spec it records the
(slot, byte-offset) pair in `m_stateVariables` (header line 147), a second
call for the same declaration overwriting the first (`std::map` assignment;
here: shadowing front insertion). -/
def addStateVariable (ctx : IRGenerationContext) (v : VariableDeclaration)
    (storageOffset : Nat) (byteOffset : Nat) : IRGenerationContext :=
  { ctx with m_stateVariables := (v.id, (storageOffset, byteOffset)) :: ctx.m_stateVariables }

/-- `bool isStateVariable(VariableDeclaration const& _varDecl) const`
(header line 112). -/
def isStateVariable (ctx : IRGenerationContext) (v : VariableDeclaration) : Bool :=
  (lookupStorage ctx.m_stateVariables v.id).isSome

/-- `storageLocationOfVariable` (header lines 113-116):
`return m_stateVariables.at(&_varDecl);` — `std::map::at` throws when the
key is absent, the condition the specification names
`UnknownStateVariableError`. -/
def storageLocationOfVariable (ctx : IRGenerationContext) (v : VariableDeclaration) :
    Except GenError (Nat × Nat) :=
  match lookupStorage ctx.m_stateVariables v.id with
  | none => .error .UnknownStateVariableError
  | some p => .ok p

/-- `RevertStrings revertStrings() const { return m_revertStrings; }`
(header line 134). -/
def revertStrings (ctx : IRGenerationContext) : RevertStrings := ctx.m_revertStrings

end IRGenerationContext

/-- Iterating `newYulVariable`: the list of names returned by `n` successive
calls together with the final context. -/
def runNewYulVariables (ctx : IRGenerationContext) : Nat → List String × IRGenerationContext
  | 0 => ([], ctx)
  | n + 1 =>
    let p := ctx.newYulVariable
    let r := runNewYulVariables p.2 n
    (p.1 :: r.1, r.2)

/-! ### Concrete sample declarations (used to instantiate the theorems) -/

def sampleF : FunctionDefinition := ⟨String.mk ['f'], 1, 0⟩

def sampleF2 : FunctionDefinition := ⟨String.mk ['f'], 2, 0⟩

def sampleV : VariableDeclaration := ⟨String.mk ['v'], 30⟩

def sampleW : VariableDeclaration := ⟨String.mk ['w'], 31⟩

def sampleBaseF : FunctionDefinition := ⟨String.mk ['f'], 10, 5⟩

def sampleDerivedF : FunctionDefinition := ⟨String.mk ['f'], 11, 5⟩

def sampleContract : ContractDefinition := ⟨20, [sampleDerivedF, sampleBaseF]⟩

def sampleContract2 : ContractDefinition := ⟨21, []⟩

def sampleCtx0 : IRGenerationContext := initialContext RevertStrings.strip

def sampleCtx1 : IRGenerationContext := (sampleCtx0.enqueueFunctionForCodeGeneration sampleF).2

def sampleCtxMD : IRGenerationContext := sampleCtx0.setMostDerivedContract sampleContract

def sampleHandle0 : IRVariable := ⟨String.mk ['_', '0']⟩

def sampleHandle1 : IRVariable := ⟨String.mk ['_', '1']⟩

/-- `sampleCtx0` after `addLocalVariable sampleV`. -/
def sampleCtxL : IRGenerationContext :=
  { sampleCtx0 with
      m_localVariables := [(sampleV.id, sampleHandle0)],
      m_varCounter := 1 }

/-- `sampleCtxL` after `addLocalVariable sampleW`. -/
def sampleCtxLW : IRGenerationContext :=
  { sampleCtx0 with
      m_localVariables := [(sampleW.id, sampleHandle1), (sampleV.id, sampleHandle0)],
      m_varCounter := 2 }

/-! ## Theorems -/

/-! ### Decimal rendering -/

theorem digitChar_toNat {d : Nat} (h : d < 10) : (Nat.digitChar d).toNat = 48 + d := by
  interval_cases d <;> rfl

theorem digitChar_ne_underscore {d : Nat} (h : d < 10) : Nat.digitChar d ≠ '_' := by
  interval_cases d <;> decide

/-- With enough fuel, the accumulator core computes the reference digits. -/
theorem natDigitsCore_eq :
    ∀ (fuel n : Nat) (acc : List Char), n < fuel →
      natDigitsCore n fuel acc = natDigitsSpec n ++ acc := by
  intro fuel
  induction fuel with
  | zero => intro n acc h; omega
  | succ fuel ih =>
    intro n acc h
    rw [natDigitsCore]
    by_cases h10 : n < 10
    · rw [if_pos h10, natDigitsSpec]
      simp [h10]
    · rw [if_neg h10]
      have hlt : n / 10 < fuel := by
        have := Nat.div_lt_self (show 0 < n by omega) (show 1 < 10 by omega)
        omega
      rw [ih (n / 10) _ hlt]
      conv_rhs => rw [natDigitsSpec]
      simp [h10]

theorem natDigits_eq_spec (n : Nat) : natDigits n = natDigitsSpec n := by
  rw [natDigits, natDigitsCore_eq (n + 1) n [] (by omega), List.append_nil]

theorem decode_natDigits (n : Nat) : decodeDigits (natDigits n) = n := by
  rw [natDigits_eq_spec]
  induction n using Nat.strong_induction_on with
  | _ n ih =>
    rw [natDigitsSpec]
    by_cases h : n < 10
    · simp only [h, dite_true]
      simp [decodeDigits, digitChar_toNat h]
    · simp only [h, dite_false]
      have hd : n / 10 < n := Nat.div_lt_self (by omega) (by omega)
      have hm : n % 10 < 10 := Nat.mod_lt _ (by omega)
      simp only [decodeDigits, List.foldl_append, List.foldl_cons, List.foldl_nil]
      have ihv := ih (n / 10) hd
      simp only [decodeDigits] at ihv
      rw [ihv, digitChar_toNat hm]
      omega

theorem natDigits_injective {a b : Nat} (h : natDigits a = natDigits b) : a = b := by
  have := congrArg decodeDigits h
  rwa [decode_natDigits, decode_natDigits] at this

theorem underscore_not_mem_natDigits (n : Nat) : '_' ∉ natDigits n := by
  rw [natDigits_eq_spec]
  induction n using Nat.strong_induction_on with
  | _ n ih =>
    rw [natDigitsSpec]
    by_cases h : n < 10
    · simp only [h, dite_true, List.mem_singleton]
      exact fun hc => digitChar_ne_underscore h hc.symm
    · simp only [h, dite_false, List.mem_append, List.mem_singleton]
      intro hc
      rcases hc with hc | hc
      · exact ih (n / 10) (Nat.div_lt_self (by omega) (by omega)) hc
      · exact digitChar_ne_underscore (Nat.mod_lt _ (by omega)) hc.symm

/-- If two lists agree and each begins with a separator-free block before a
`'_'` separator, the blocks before and after the separator agree. -/
theorem sep_append_inj :
    ∀ (A1 : List Char) (B1 A2 B2 : List Char), '_' ∉ A1 → '_' ∉ A2 →
      A1 ++ '_' :: B1 = A2 ++ '_' :: B2 → A1 = A2 ∧ B1 = B2 := by
  intro A1
  induction A1 with
  | nil =>
    intro B1 A2 B2 _ h2 heq
    cases A2 with
    | nil => simpa using heq
    | cons a t =>
      simp only [List.nil_append, List.cons_append, List.cons.injEq] at heq
      exact absurd (heq.1.symm ▸ List.mem_cons_self a t) (heq.1 ▸ h2)
  | cons a t ih =>
    intro B1 A2 B2 h1 h2 heq
    cases A2 with
    | nil =>
      simp only [List.cons_append, List.nil_append, List.cons.injEq] at heq
      exact absurd (heq.1 ▸ List.mem_cons_self a t) (heq.1.symm ▸ h1)
    | cons b t2 =>
      simp only [List.cons_append, List.cons.injEq] at heq
      have h1' : '_' ∉ t := fun hm => h1 (List.mem_cons_of_mem a hm)
      have h2' : '_' ∉ t2 := fun hm => h2 (List.mem_cons_of_mem b hm)
      obtain ⟨ht, hb⟩ := ih B1 t2 B2 h1' h2' heq.2
      exact ⟨by rw [heq.1, ht], hb⟩

/-- If two lists agree and each ends with `'_'` followed by a
separator-free suffix, the suffixes agree (the segment after the *last*
separator is determined). -/
theorem last_sep_inj (X1 D1 X2 D2 : List Char) (h1 : '_' ∉ D1) (h2 : '_' ∉ D2)
    (heq : X1 ++ '_' :: D1 = X2 ++ '_' :: D2) : D1 = D2 := by
  have hr := congrArg List.reverse heq
  simp only [List.reverse_append, List.reverse_cons, List.append_assoc,
    List.singleton_append] at hr
  have h1' : '_' ∉ D1.reverse := by simpa using h1
  have h2' : '_' ∉ D2.reverse := by simpa using h2
  have := (sep_append_inj D1.reverse _ D2.reverse _ h1' h2' hr).1
  simpa using congrArg List.reverse this

/-- Two generated names of the shape `prefix ++ source name ++ "_" ++ digits`
with the same prefix agree only when the trailing ids agree. -/
theorem name_shape_inj (p n1 n2 : List Char) (a b : Nat)
    (h : p ++ (n1 ++ '_' :: natDigits a) = p ++ (n2 ++ '_' :: natDigits b)) : a = b := by
  have h' := List.append_cancel_left h
  exact natDigits_injective
    (last_sep_inj n1 (natDigits a) n2 (natDigits b)
      (underscore_not_mem_natDigits a) (underscore_not_mem_natDigits b) h')

/-! ### Ordered-set insertion (std::set) -/

theorem mem_setInsert (a x : Nat) (l : List Nat) :
    a ∈ setInsert x l ↔ a = x ∨ a ∈ l := by
  induction l with
  | nil => simp [setInsert]
  | cons y ys ih =>
    by_cases h1 : x < y
    · simp [setInsert, h1]
    · by_cases h2 : x = y
      · subst h2
        simp only [setInsert, h1, if_false, if_true, eq_self_iff_true, List.mem_cons]
        tauto
      · simp only [setInsert, h1, if_false, h2, List.mem_cons, ih]
        tauto

theorem pairwise_setInsert (x : Nat) (l : List Nat) (hs : l.Pairwise (· < ·)) :
    (setInsert x l).Pairwise (· < ·) := by
  induction l with
  | nil => simp [setInsert]
  | cons y ys ih =>
    rw [List.pairwise_cons] at hs
    obtain ⟨hy, hys⟩ := hs
    by_cases h1 : x < y
    · simp only [setInsert, h1, if_true]
      rw [List.pairwise_cons]
      refine ⟨?_, List.pairwise_cons.mpr ⟨hy, hys⟩⟩
      intro b hb
      rcases List.mem_cons.mp hb with rfl | hb
      · exact h1
      · exact Nat.lt_trans h1 (hy b hb)
    · by_cases h2 : x = y
      · subst h2
        simp only [setInsert, h1, if_false, if_pos rfl]
        exact List.pairwise_cons.mpr ⟨hy, hys⟩
      · have hyx : y < x := by omega
        simp only [setInsert, h1, if_false, h2]
        rw [List.pairwise_cons]
        refine ⟨?_, ih hys⟩
        intro b hb
        rcases (mem_setInsert b x ys).mp hb with rfl | hb
        · exact hyx
        · exact hy b hb

theorem setInsert_of_mem (x : Nat) (l : List Nat) (hs : l.Pairwise (· < ·)) (hm : x ∈ l) :
    setInsert x l = l := by
  induction l with
  | nil => cases hm
  | cons y ys ih =>
    rw [List.pairwise_cons] at hs
    obtain ⟨hy, hys⟩ := hs
    rcases List.mem_cons.mp hm with rfl | hm
    · simp [setInsert, Nat.lt_irrefl]
    · have hyx : y < x := hy x hm
      have h1 : ¬ x < y := by omega
      have h2 : ¬ x = y := by omega
      simp only [setInsert, h1, if_false, h2, ih hys hm]

/-- `std::set::insert` and `List.toFinset`: inserting adds the element to the
set of members. -/
theorem toFinset_setInsert (x : Nat) (l : List Nat) :
    (setInsert x l).toFinset = insert x l.toFinset := by
  induction l with
  | nil => simp [setInsert]
  | cons y ys ih =>
    by_cases h1 : x < y
    · simp [setInsert, h1]
    · by_cases h2 : x = y
      · subst h2
        simp only [setInsert, h1, if_false, if_true, eq_self_iff_true, List.toFinset_cons,
          Finset.insert_idem]
      · simp only [setInsert, h1, if_false, h2, List.toFinset_cons, ih]
        exact Finset.Insert.comm y x ys.toFinset

/-- Folding `push` over a list of declarations preserves strict sortedness of
the backing list and accumulates exactly the members pushed. -/
theorem foldl_push_invariant (pushes : List Nat) :
    ∀ q : IRFunctionGenerationQueue, q.m_definitions.Pairwise (· < ·) →
      (pushes.foldl IRFunctionGenerationQueue.push q).m_definitions.Pairwise (· < ·) ∧
      (pushes.foldl IRFunctionGenerationQueue.push q).m_definitions.toFinset =
        q.m_definitions.toFinset ∪ pushes.toFinset := by
  induction pushes with
  | nil =>
    intro q hq
    exact ⟨hq, by simp⟩
  | cons a l ih =>
    intro q hq
    have h1 : (q.push a).m_definitions.Pairwise (· < ·) := pairwise_setInsert a _ hq
    obtain ⟨hp, hf⟩ := ih (q.push a) h1
    rw [List.foldl_cons]
    refine ⟨hp, ?_⟩
    rw [hf]
    show (setInsert a q.m_definitions).toFinset ∪ l.toFinset = _
    rw [toFinset_setInsert]
    simp [List.toFinset_cons, Finset.insert_union, Finset.union_insert]

/-- C2: the function generation queue has set semantics: pushing an
already-present declaration onto a reachable (strictly sorted) queue is a
no-op, and for every sequence of pushes starting from the empty queue the
size equals the number of distinct declaration identities pushed,
independent of duplicates and call order. -/
theorem queue_push_set_semantics :
    (∀ (q : IRFunctionGenerationQueue) (d : Nat),
        q.m_definitions.Pairwise (· < ·) → d ∈ q.m_definitions → q.push d = q) ∧
    ∀ pushes : List Nat,
      (pushes.foldl IRFunctionGenerationQueue.push emptyQueue).size = pushes.toFinset.card := by
  constructor
  · intro q d hs hm
    show (⟨setInsert d q.m_definitions⟩ : IRFunctionGenerationQueue) = q
    rw [setInsert_of_mem d _ hs hm]
  · intro pushes
    obtain ⟨hp, hf⟩ := foldl_push_invariant pushes emptyQueue (by simp [emptyQueue])
    have hnd : (pushes.foldl IRFunctionGenerationQueue.push emptyQueue).m_definitions.Nodup :=
      hp.imp Nat.ne_of_lt
    show (pushes.foldl IRFunctionGenerationQueue.push emptyQueue).m_definitions.length = _
    rw [← List.toFinset_card_of_nodup hnd, hf]
    simp [emptyQueue]

/-- Witness for C2 at concrete inputs: pushing the already-present `3` onto
the queue `{1, 3}` is a no-op, and pushing `2, 5, 2, 7` onto the empty
queue yields size `3`. -/
theorem queue_push_set_semantics_witness :
    (⟨[1, 3]⟩ : IRFunctionGenerationQueue).push 3 = ⟨[1, 3]⟩ ∧
    ([2, 5, 2, 7].foldl IRFunctionGenerationQueue.push emptyQueue).size = 3 := by
  constructor
  · exact queue_push_set_semantics.1 ⟨[1, 3]⟩ 3 (by decide) (by decide)
  · have h := queue_push_set_semantics.2 [2, 5, 2, 7]
    rw [h]
    decide

/-- C5: `pop` fails with `EmptyQueueError` if and only if the queue is empty
(and that is the only error it produces); on a non-empty queue it returns a
present declaration and a queue whose size has decreased by exactly one. -/
theorem queue_pop_spec :
    ∀ q : IRFunctionGenerationQueue,
      (q.pop = .error .EmptyQueueError ↔ q.empty = true) ∧
      (∀ e, q.pop = .error e → e = .EmptyQueueError) ∧
      (∀ d q', q.pop = .ok (d, q') →
        d ∈ q.m_definitions ∧ q'.size = q.size - 1) := by
  intro q
  obtain ⟨defs⟩ := q
  cases defs with
  | nil =>
    refine ⟨by simp [IRFunctionGenerationQueue.pop, IRFunctionGenerationQueue.empty], ?_, ?_⟩
    · intro e he
      simp only [IRFunctionGenerationQueue.pop] at he
      cases he
      rfl
    · intro d q' h
      simp [IRFunctionGenerationQueue.pop] at h
  | cons a rest =>
    refine ⟨by simp [IRFunctionGenerationQueue.pop, IRFunctionGenerationQueue.empty], ?_, ?_⟩
    · intro e he
      simp [IRFunctionGenerationQueue.pop] at he
    · intro d q' h
      simp only [IRFunctionGenerationQueue.pop, Except.ok.injEq, Prod.mk.injEq] at h
      obtain ⟨rfl, rfl⟩ := h
      exact ⟨List.mem_cons_self a rest, by simp [IRFunctionGenerationQueue.size]⟩

/-- Witness for C5 at concrete inputs: popping the empty queue fails with
`EmptyQueueError`, and popping `{4, 9}` returns the present declaration `4`
with the size decreased by one. -/
theorem queue_pop_spec_witness :
    emptyQueue.pop = .error .EmptyQueueError ∧
    (4 ∈ (⟨[4, 9]⟩ : IRFunctionGenerationQueue).m_definitions ∧
      (⟨[9]⟩ : IRFunctionGenerationQueue).size =
        (⟨[4, 9]⟩ : IRFunctionGenerationQueue).size - 1) := by
  constructor
  · exact (queue_pop_spec emptyQueue).1.mpr (by decide)
  · exact (queue_pop_spec ⟨[4, 9]⟩).2.2 4 ⟨[9]⟩ (by rfl)

/-! ### Memoized function enqueueing -/

/-- After an enqueue of `f`, the name table maps `(f.id, functionBody)` to the
returned name. -/
theorem lookupName_after_enqueue (ctx : IRGenerationContext) (f : FunctionDefinition) :
    lookupName (ctx.enqueueFunctionForCodeGeneration f).2.m_nameTable
        (f.id, NamePurpose.functionBody) =
      some (ctx.enqueueFunctionForCodeGeneration f).1 := by
  unfold IRGenerationContext.enqueueFunctionForCodeGeneration
  cases h : lookupName ctx.m_nameTable (f.id, NamePurpose.functionBody) with
  | some n => simpa using h
  | none => simp [lookupName]

/-- The memoized path of `enqueueFunctionForCodeGeneration`: an already
recorded name is returned unchanged with the context untouched. -/
theorem enqueue_memoized (ctx : IRGenerationContext) (f : FunctionDefinition) (n : String)
    (h : lookupName ctx.m_nameTable (f.id, NamePurpose.functionBody) = some n) :
    ctx.enqueueFunctionForCodeGeneration f = (n, ctx) := by
  unfold IRGenerationContext.enqueueFunctionForCodeGeneration
  rw [h]

/-- C1: `enqueueFunctionForCodeGeneration` is idempotent in its return value:
when `(f, functionBody)` already has a generated name the call returns that
name with the context (hence the queue) unchanged; a second call on the same
declaration returns the same name as the first and leaves the whole context
unchanged, and only the first call pushes onto the function generation
queue. -/
theorem enqueueFunction_idempotent :
    ∀ (ctx : IRGenerationContext) (f : FunctionDefinition),
      (∀ n, lookupName ctx.m_nameTable (f.id, NamePurpose.functionBody) = some n →
          ctx.enqueueFunctionForCodeGeneration f = (n, ctx)) ∧
      ((ctx.enqueueFunctionForCodeGeneration f).2.enqueueFunctionForCodeGeneration f =
        ((ctx.enqueueFunctionForCodeGeneration f).1,
          (ctx.enqueueFunctionForCodeGeneration f).2)) ∧
      (lookupName ctx.m_nameTable (f.id, NamePurpose.functionBody) = none →
          (ctx.enqueueFunctionForCodeGeneration f).2.m_functionGenerationQueue =
            ctx.m_functionGenerationQueue.push f.id) := by
  intro ctx f
  refine ⟨?_, ?_, ?_⟩
  · intro n hn
    exact enqueue_memoized ctx f n hn
  · exact enqueue_memoized _ f _ (lookupName_after_enqueue ctx f)
  · intro hn
    unfold IRGenerationContext.enqueueFunctionForCodeGeneration
    rw [hn]

/-- Witness for C1 at concrete inputs: on a fresh context, enqueueing
`sampleF` pushes its id onto the queue; enqueueing it again (memoized path)
returns the recorded name with the context unchanged. -/
theorem enqueueFunction_idempotent_witness :
    (sampleCtx0.enqueueFunctionForCodeGeneration sampleF).2.m_functionGenerationQueue =
      sampleCtx0.m_functionGenerationQueue.push sampleF.id ∧
    sampleCtx1.enqueueFunctionForCodeGeneration sampleF =
      (IRGenerationContext.functionName sampleF, sampleCtx1) := by
  constructor
  · exact (enqueueFunction_idempotent sampleCtx0 sampleF).2.2 (by rfl)
  · exact (enqueueFunction_idempotent sampleCtx1 sampleF).1
      (IRGenerationContext.functionName sampleF) (by rfl)

/-! ### Global uniqueness of generated names -/

/-- C3: generated function names are globally unique per run: distinct
function-declaration identities get distinct names even when their
source-level names coincide, distinct state-variable identities get distinct
accessor names, a function name never collides with an accessor name, and an
entry of the name table, once present, is never changed by later enqueues
(each (identity, purpose) pair keeps exactly one name for the run). -/
theorem functionName_globally_unique :
    (∀ f1 f2 : FunctionDefinition, f1.id ≠ f2.id →
        IRGenerationContext.functionName f1 ≠ IRGenerationContext.functionName f2) ∧
    (∀ v1 v2 : VariableDeclaration, v1.id ≠ v2.id →
        IRGenerationContext.functionNameOfAccessor v1 ≠
          IRGenerationContext.functionNameOfAccessor v2) ∧
    (∀ (f : FunctionDefinition) (v : VariableDeclaration),
        IRGenerationContext.functionName f ≠ IRGenerationContext.functionNameOfAccessor v) ∧
    (∀ (ctx : IRGenerationContext) (f g : FunctionDefinition) (n : String),
        lookupName ctx.m_nameTable (f.id, NamePurpose.functionBody) = some n →
        lookupName (ctx.enqueueFunctionForCodeGeneration g).2.m_nameTable
            (f.id, NamePurpose.functionBody) = some n) := by
  refine ⟨?_, ?_, ?_, ?_⟩
  · intro f1 f2 hne heq
    rw [IRGenerationContext.functionName, IRGenerationContext.functionName] at heq
    have hd : ['f', 'u', 'n', '_'] ++ (f1.name.data ++ '_' :: natDigits f1.id) =
        ['f', 'u', 'n', '_'] ++ (f2.name.data ++ '_' :: natDigits f2.id) := by
      have h2 := congrArg String.data heq
      simpa [List.append_assoc] using h2
    exact hne (name_shape_inj _ _ _ _ _ hd)
  · intro v1 v2 hne heq
    rw [IRGenerationContext.functionNameOfAccessor,
      IRGenerationContext.functionNameOfAccessor] at heq
    have hd : ['g', 'e', 't', 't', 'e', 'r', '_', 'f', 'u', 'n', '_'] ++
          (v1.name.data ++ '_' :: natDigits v1.id) =
        ['g', 'e', 't', 't', 'e', 'r', '_', 'f', 'u', 'n', '_'] ++
          (v2.name.data ++ '_' :: natDigits v2.id) := by
      have h2 := congrArg String.data heq
      simpa [List.append_assoc] using h2
    exact hne (name_shape_inj _ _ _ _ _ hd)
  · intro f v heq
    rw [IRGenerationContext.functionName, IRGenerationContext.functionNameOfAccessor] at heq
    have h2 : (['f', 'u', 'n', '_'] ++ f.name.data ++ '_' :: natDigits f.id) =
        (['g', 'e', 't', 't', 'e', 'r', '_', 'f', 'u', 'n', '_'] ++
          v.name.data ++ '_' :: natDigits v.id) := congrArg String.data heq
    rw [List.cons_append, List.cons_append] at h2
    injection h2 with hhead _
    exact absurd hhead (by decide)
  · intro ctx f g n hn
    unfold IRGenerationContext.enqueueFunctionForCodeGeneration
    cases hg : lookupName ctx.m_nameTable (g.id, NamePurpose.functionBody) with
    | some m => simpa using hn
    | none =>
      by_cases hid : g.id = f.id
      · rw [hid] at hg
        rw [hg] at hn
        cases hn
      · simp only [lookupName]
        rw [if_neg (by simp [hid])]
        exact hn

/-- Witness for C3 at concrete inputs: `sampleF` and `sampleF2` share the
source name but get distinct generated names, two distinct state variables
get distinct accessor names, a function name differs from an accessor name,
and the name recorded for `sampleF` survives a later enqueue of `sampleF2`. -/
theorem functionName_globally_unique_witness :
    IRGenerationContext.functionName sampleF ≠ IRGenerationContext.functionName sampleF2 ∧
    IRGenerationContext.functionNameOfAccessor sampleV ≠
      IRGenerationContext.functionNameOfAccessor sampleW ∧
    IRGenerationContext.functionName sampleF ≠
      IRGenerationContext.functionNameOfAccessor sampleV ∧
    lookupName (sampleCtx1.enqueueFunctionForCodeGeneration sampleF2).2.m_nameTable
        (sampleF.id, NamePurpose.functionBody) =
      some (IRGenerationContext.functionName sampleF) := by
  refine ⟨?_, ?_, ?_, ?_⟩
  · exact functionName_globally_unique.1 sampleF sampleF2 (by decide)
  · exact functionName_globally_unique.2.1 sampleV sampleW (by decide)
  · exact functionName_globally_unique.2.2.1 sampleF sampleV
  · exact functionName_globally_unique.2.2.2 sampleCtx1 sampleF sampleF2
      (IRGenerationContext.functionName sampleF) (by rfl)

/-! ### Virtual dispatch resolution -/

/-- `List.find?` returns the first element satisfying the predicate: splitting
the list at the first satisfying element determines the result. -/
theorem find?_first_match (p : FunctionDefinition → Bool) :
    ∀ (pre : List FunctionDefinition) (f : FunctionDefinition) (post : List FunctionDefinition),
      (∀ g ∈ pre, p g = false) → p f = true →
      (pre ++ f :: post).find? p = some f := by
  intro pre
  induction pre with
  | nil =>
    intro f post _ hf
    simp [List.find?_cons, hf]
  | cons a t ih =>
    intro f post hpre hf
    have ha : p a = false := hpre a (List.mem_cons_self a t)
    rw [List.cons_append, List.find?_cons, ha]
    exact ih f post (fun g hg => hpre g (List.mem_cons_of_mem a hg)) hf

/-- C4: `enqueueVirtualFunctionForCodeGeneration` fails with
`NoMostDerivedContractError` whenever no most derived contract has been set
(as does the `mostDerivedContract` accessor); otherwise it resolves the
declaration to the first overriding declaration (same signature) in the
concrete type's linearized override chain, most-derived first — including
the declaration itself when it is the first such — and delegates to
`enqueueFunctionForCodeGeneration` on the resolved declaration, returning
its result. -/
theorem enqueueVirtualFunction_spec :
    ∀ (ctx : IRGenerationContext) (d : FunctionDefinition),
      (ctx.m_mostDerivedContract = none →
        ctx.enqueueVirtualFunctionForCodeGeneration d = .error .NoMostDerivedContractError ∧
        ctx.mostDerivedContract = .error .NoMostDerivedContractError) ∧
      (∀ c d', ctx.m_mostDerivedContract = some c →
        IRGenerationContext.resolveVirtual c d = some d' →
        ctx.enqueueVirtualFunctionForCodeGeneration d =
          .ok (ctx.enqueueFunctionForCodeGeneration d')) ∧
      (∀ c pre f post, ctx.m_mostDerivedContract = some c →
        c.linearizedOverrideChain = pre ++ f :: post →
        (∀ g ∈ pre, g.sig ≠ d.sig) → f.sig = d.sig →
        ctx.enqueueVirtualFunctionForCodeGeneration d =
          .ok (ctx.enqueueFunctionForCodeGeneration f)) := by
  intro ctx d
  have hres : ∀ c pre f post, c.linearizedOverrideChain = pre ++ f :: post →
      (∀ g ∈ pre, g.sig ≠ d.sig) → f.sig = d.sig →
      IRGenerationContext.resolveVirtual c d = some f := by
    intro c pre f post hchain hpre hf
    unfold IRGenerationContext.resolveVirtual
    rw [hchain]
    exact find?_first_match _ pre f post
      (fun g hg => by simpa using hpre g hg) (by simpa using hf)
  refine ⟨?_, ?_, ?_⟩
  · intro hnone
    unfold IRGenerationContext.enqueueVirtualFunctionForCodeGeneration
      IRGenerationContext.mostDerivedContract
    rw [hnone]
    exact ⟨rfl, rfl⟩
  · intro c d' hsome hr
    unfold IRGenerationContext.enqueueVirtualFunctionForCodeGeneration
    rw [hsome]
    show (match IRGenerationContext.resolveVirtual c d with
      | none => Except.error GenError.NoOverriderFoundError
      | some d' => Except.ok (ctx.enqueueFunctionForCodeGeneration d')) = _
    rw [hr]
  · intro c pre f post hsome hchain hpre hf
    unfold IRGenerationContext.enqueueVirtualFunctionForCodeGeneration
    rw [hsome]
    show (match IRGenerationContext.resolveVirtual c d with
      | none => Except.error GenError.NoOverriderFoundError
      | some d' => Except.ok (ctx.enqueueFunctionForCodeGeneration d')) = _
    rw [hres c pre f post hchain hpre hf]

/-- Witness for C4 at concrete inputs: on a fresh context the virtual enqueue
of `sampleBaseF` fails with `NoMostDerivedContractError`; with the most
derived contract set to `sampleContract` (override chain
`[sampleDerivedF, sampleBaseF]`) it resolves `sampleBaseF` to the
most-derived override `sampleDerivedF` and delegates to the plain enqueue. -/
theorem enqueueVirtualFunction_spec_witness :
    sampleCtx0.enqueueVirtualFunctionForCodeGeneration sampleBaseF =
      .error .NoMostDerivedContractError ∧
    sampleCtxMD.enqueueVirtualFunctionForCodeGeneration sampleBaseF =
      .ok (sampleCtxMD.enqueueFunctionForCodeGeneration sampleDerivedF) := by
  constructor
  · exact ((enqueueVirtualFunction_spec sampleCtx0 sampleBaseF).1 (by rfl)).1
  · exact (enqueueVirtualFunction_spec sampleCtxMD sampleBaseF).2.2 sampleContract
      [] sampleDerivedF [sampleBaseF] (by rfl) (by rfl) (by simp) (by rfl)

/-! ### Most derived contract: last write wins -/

/-- Folding `setMostDerivedContract` over a history ending in `c` stores `c`. -/
theorem foldl_setMostDerivedContract_append (l : List ContractDefinition)
    (c : ContractDefinition) :
    ∀ ctx : IRGenerationContext,
      ((l ++ [c]).foldl IRGenerationContext.setMostDerivedContract ctx).m_mostDerivedContract =
        some c := by
  induction l with
  | nil => intro ctx; rfl
  | cons a t ih =>
    intro ctx
    rw [List.cons_append, List.foldl_cons]
    exact ih _

/-- C10: `setMostDerivedContract` may be called repeatedly; each call simply
overwrites the stored concrete-type context (no error, no guard), and after
any non-empty sequence of calls `mostDerivedContract()` returns the argument
of the most recent call. -/
theorem setMostDerivedContract_overwrites :
    ∀ (ctx : IRGenerationContext) (cs : List ContractDefinition) (h : cs ≠ []),
      (cs.foldl IRGenerationContext.setMostDerivedContract ctx).m_mostDerivedContract =
        some (cs.getLast h) ∧
      (cs.foldl IRGenerationContext.setMostDerivedContract ctx).mostDerivedContract =
        .ok (cs.getLast h) := by
  intro ctx cs h
  obtain ⟨l', c', hcs⟩ : ∃ L b, cs = L ++ [b] := by
    rcases List.eq_nil_or_concat cs with rfl | ⟨L, b, hb⟩
    · exact absurd rfl h
    · exact ⟨L, b, by simpa [List.concat_eq_append] using hb⟩
  subst hcs
  have h1 := foldl_setMostDerivedContract_append l' c' ctx
  have hlast : (l' ++ [c']).getLast h = c' := List.getLast_concat l'
  rw [hlast]
  refine ⟨h1, ?_⟩
  unfold IRGenerationContext.mostDerivedContract
  rw [h1]

/-- Witness for C10 at concrete inputs: setting `sampleContract` then
`sampleContract2` leaves `sampleContract2` stored, and the accessor returns
it without error. -/
theorem setMostDerivedContract_overwrites_witness :
    ([sampleContract, sampleContract2].foldl IRGenerationContext.setMostDerivedContract
        sampleCtx0).m_mostDerivedContract = some sampleContract2 ∧
    ([sampleContract, sampleContract2].foldl IRGenerationContext.setMostDerivedContract
        sampleCtx0).mostDerivedContract = .ok sampleContract2 := by
  simpa using setMostDerivedContract_overwrites sampleCtx0
    [sampleContract, sampleContract2] (by simp)

/-! ### Local variable registry -/

/-- C6: `addLocalVariable` fails with `DuplicateLocalError` exactly when the
declaration is already registered; otherwise it stores and returns a fresh
handle, `localVariable` fails with `UnknownLocalError` before registration
and afterwards returns the stored handle on every lookup, also after other
declarations are registered later. -/
theorem localVariable_registry_spec :
    ∀ (ctx : IRGenerationContext) (v : VariableDeclaration),
      ((lookupLocal ctx.m_localVariables v.id).isSome →
        ctx.addLocalVariable v = .error .DuplicateLocalError) ∧
      (lookupLocal ctx.m_localVariables v.id = none →
        ctx.localVariable v = .error .UnknownLocalError ∧
        ∃ hv ctx', ctx.addLocalVariable v = .ok (hv, ctx') ∧ ctx'.localVariable v = .ok hv) ∧
      (∀ hv (w : VariableDeclaration) hw ctx'', ctx.localVariable v = .ok hv → w.id ≠ v.id →
        ctx.addLocalVariable w = .ok (hw, ctx'') → ctx''.localVariable v = .ok hv) := by
  intro ctx v
  refine ⟨?_, ?_, ?_⟩
  · intro hs
    obtain ⟨hv, hl⟩ := Option.isSome_iff_exists.mp hs
    unfold IRGenerationContext.addLocalVariable
    rw [hl]
  · intro hn
    constructor
    · unfold IRGenerationContext.localVariable
      rw [hn]
    · refine ⟨⟨(ctx.newYulVariable).1⟩,
        { (ctx.newYulVariable).2 with
            m_localVariables :=
              (v.id, ⟨(ctx.newYulVariable).1⟩) :: (ctx.newYulVariable).2.m_localVariables },
        ?_, ?_⟩
      · unfold IRGenerationContext.addLocalVariable
        rw [hn]
      · unfold IRGenerationContext.localVariable
        simp [lookupLocal]
  · intro hv w hw ctx'' hl hne ha
    unfold IRGenerationContext.localVariable at hl
    unfold IRGenerationContext.addLocalVariable at ha
    cases hlv : lookupLocal ctx.m_localVariables v.id with
    | none => rw [hlv] at hl; cases hl
    | some hv0 =>
      rw [hlv] at hl
      cases hl
      cases hlw : lookupLocal ctx.m_localVariables w.id with
      | some hw0 => rw [hlw] at ha; cases ha
      | none =>
        rw [hlw] at ha
        simp only [Except.ok.injEq, Prod.mk.injEq] at ha
        obtain ⟨_, rfl⟩ := ha
        unfold IRGenerationContext.localVariable
        simp only [lookupLocal, IRGenerationContext.newYulVariable]
        rw [if_neg hne, hlv]

/-- Witness for C6 at concrete inputs: on a fresh context, looking `sampleV`
up fails with `UnknownLocalError`, adding it succeeds and the stored handle
is then returned by lookup; the lookup still returns it after `sampleW` is
added, and re-adding `sampleV` fails with `DuplicateLocalError`. -/
theorem localVariable_registry_spec_witness :
    (sampleCtx0.localVariable sampleV = .error .UnknownLocalError ∧
      ∃ hv ctx', sampleCtx0.addLocalVariable sampleV = .ok (hv, ctx') ∧
        ctx'.localVariable sampleV = .ok hv) ∧
    sampleCtxLW.localVariable sampleV = .ok sampleHandle0 ∧
    sampleCtxL.addLocalVariable sampleV = .error .DuplicateLocalError := by
  refine ⟨?_, ?_, ?_⟩
  · exact (localVariable_registry_spec sampleCtx0 sampleV).2.1 (by rfl)
  · exact (localVariable_registry_spec sampleCtxL sampleV).2.2 sampleHandle0 sampleW
      sampleHandle1 sampleCtxLW (by rfl) (by decide) (by rfl)
  · exact (localVariable_registry_spec sampleCtxL sampleV).1 (by rfl)

/-! ### State variable registry -/

/-- C7: `storageLocationOfVariable` fails with `UnknownStateVariableError`
when the declaration is not recorded; after `addStateVariable` it returns
the recorded (slot, byte-offset) pair, a second `addStateVariable` for the
same declaration overwrites the first (last write wins), and recording a
different declaration leaves the result for `v` unchanged. -/
theorem storageLocationOfVariable_spec :
    ∀ (ctx : IRGenerationContext) (v : VariableDeclaration) (slot off : Nat),
      (lookupStorage ctx.m_stateVariables v.id = none →
        ctx.storageLocationOfVariable v = .error .UnknownStateVariableError) ∧
      ((ctx.addStateVariable v slot off).storageLocationOfVariable v = .ok (slot, off)) ∧
      (∀ slot' off',
        ((ctx.addStateVariable v slot off).addStateVariable v slot' off').storageLocationOfVariable
          v = .ok (slot', off')) ∧
      (∀ w : VariableDeclaration, w.id ≠ v.id →
        (ctx.addStateVariable w slot off).storageLocationOfVariable v =
          ctx.storageLocationOfVariable v) := by
  intro ctx v slot off
  refine ⟨?_, ?_, ?_, ?_⟩
  · intro hn
    unfold IRGenerationContext.storageLocationOfVariable
    rw [hn]
  · unfold IRGenerationContext.storageLocationOfVariable IRGenerationContext.addStateVariable
    simp [lookupStorage]
  · intro slot' off'
    unfold IRGenerationContext.storageLocationOfVariable IRGenerationContext.addStateVariable
    simp [lookupStorage]
  · intro w hne
    unfold IRGenerationContext.storageLocationOfVariable IRGenerationContext.addStateVariable
    simp only [lookupStorage]
    rw [if_neg hne]

/-- Witness for C7 at concrete inputs: on a fresh context `sampleV` has no
storage location; after recording (3, 2) it is returned; recording (7, 0)
afterwards overwrites; recording `sampleW` does not disturb `sampleV`. -/
theorem storageLocationOfVariable_spec_witness :
    sampleCtx0.storageLocationOfVariable sampleV = .error .UnknownStateVariableError ∧
    (sampleCtx0.addStateVariable sampleV 3 2).storageLocationOfVariable sampleV = .ok (3, 2) ∧
    ((sampleCtx0.addStateVariable sampleV 3 2).addStateVariable sampleV 7
        0).storageLocationOfVariable sampleV = .ok (7, 0) ∧
    ((sampleCtx0.addStateVariable sampleV 3 2).addStateVariable sampleW 9
        1).storageLocationOfVariable sampleV =
      (sampleCtx0.addStateVariable sampleV 3 2).storageLocationOfVariable sampleV := by
  refine ⟨?_, ?_, ?_, ?_⟩
  · exact (storageLocationOfVariable_spec sampleCtx0 sampleV 3 2).1 (by rfl)
  · exact (storageLocationOfVariable_spec sampleCtx0 sampleV 3 2).2.1
  · exact (storageLocationOfVariable_spec sampleCtx0 sampleV 3 2).2.2.1 7 0
  · exact (storageLocationOfVariable_spec (sampleCtx0.addStateVariable sampleV 3 2)
      sampleV 9 1).2.2.2 sampleW (by decide)

/-! ### Name allocator freshness -/

/-- The names produced by `n` successive `newYulVariable` calls are the fixed
prefix applied to the successive counter values. -/
theorem runNewYulVariables_names (n : Nat) :
    ∀ ctx : IRGenerationContext,
      (runNewYulVariables ctx n).1 =
        (List.range n).map (fun i => String.mk ('_' :: natDigits (ctx.m_varCounter + i))) := by
  induction n with
  | zero => intro ctx; rfl
  | succ n ih =>
    intro ctx
    rw [runNewYulVariables]
    rw [List.range_succ_eq_map, List.map_cons, List.map_map]
    simp only [Nat.add_zero, List.cons.injEq]
    refine ⟨rfl, ?_⟩
    rw [ih ctx.newYulVariable.2]
    apply List.map_congr_left
    intro i _
    have hc : ctx.newYulVariable.2.m_varCounter = ctx.m_varCounter + 1 := rfl
    rw [hc]
    simp only [Function.comp_apply]
    have h2 : ctx.m_varCounter + 1 + i = ctx.m_varCounter + (i + 1) := by omega
    rw [h2]

/-- C8: `newYulVariable` never fails (it is a total function of the context),
each call returns the fixed prefix `"_"` plus the current counter —
seeded at 0 by construction — and increments the counter unconditionally;
the names returned by `n` successive calls are pairwise distinct for every
`n`, so no string is ever returned twice across a run. -/
theorem newYulVariable_fresh :
    ∀ (ctx : IRGenerationContext) (n : Nat),
      (ctx.newYulVariable =
        (String.mk ('_' :: natDigits ctx.m_varCounter),
          { ctx with m_varCounter := ctx.m_varCounter + 1 })) ∧
      ((initialContext ctx.m_revertStrings).m_varCounter = 0) ∧
      ((runNewYulVariables ctx n).1.length = n) ∧
      (runNewYulVariables ctx n).1.Nodup := by
  intro ctx n
  refine ⟨rfl, rfl, ?_, ?_⟩
  · rw [runNewYulVariables_names]
    simp
  · rw [runNewYulVariables_names]
    refine List.Nodup.map ?_ (List.nodup_range n)
    intro i j hij
    have hd : '_' :: natDigits (ctx.m_varCounter + i) =
        '_' :: natDigits (ctx.m_varCounter + j) := congrArg String.data hij
    have h2 := natDigits_injective (List.tail_eq_of_cons_eq hd)
    omega

/-! ### Internal dispatch memoization -/

/-- The first component of `internalDispatch` is the shape-determined name. -/
theorem internalDispatch_fst (ctx : IRGenerationContext) (inArity outArity : Nat) :
    (ctx.internalDispatch inArity outArity).1 =
      IRGenerationContext.internalDispatchName inArity outArity := by
  unfold IRGenerationContext.internalDispatch
  split <;> rfl

/-- The dispatcher name determines the shape. -/
theorem internalDispatchName_inj (i o i' o' : Nat)
    (h : IRGenerationContext.internalDispatchName i o =
      IRGenerationContext.internalDispatchName i' o') : i = i' ∧ o = o' := by
  unfold IRGenerationContext.internalDispatchName at h
  have hd : ['d', 'i', 's', 'p', 'a', 't', 'c', 'h', '_', 'i', 'n', 't', 'e', 'r',
      'n', 'a', 'l', '_', 'i', 'n', '_'] ++ (natDigits i ++
        '_' :: 'o' :: 'u' :: 't' :: '_' :: natDigits o) =
      ['d', 'i', 's', 'p', 'a', 't', 'c', 'h', '_', 'i', 'n', 't', 'e', 'r',
      'n', 'a', 'l', '_', 'i', 'n', '_'] ++ (natDigits i' ++
        '_' :: 'o' :: 'u' :: 't' :: '_' :: natDigits o') := by
    have h2 := congrArg String.data h
    simpa [List.append_assoc] using h2
  have h3 := List.append_cancel_left hd
  obtain ⟨hi, hrest⟩ := sep_append_inj (natDigits i) _ (natDigits i') _
    (underscore_not_mem_natDigits i) (underscore_not_mem_natDigits i') h3
  refine ⟨natDigits_injective hi, ?_⟩
  simp only [List.cons.injEq, true_and] at hrest
  exact natDigits_injective hrest

/-- C9: `internalDispatch` is memoized per (input-arity, output-arity) shape:
a second call with the same shape returns the same name and leaves the
context unchanged (at most one dispatcher is generated per shape), calls
with distinct shapes return distinct names, a cached shape is returned
without state change, and an uncached shape is added to the cache. -/
theorem internalDispatch_memoized :
    ∀ (ctx : IRGenerationContext) (i o : Nat),
      ((ctx.internalDispatch i o).2.internalDispatch i o =
        ((ctx.internalDispatch i o).1, (ctx.internalDispatch i o).2)) ∧
      (∀ i' o', (i, o) ≠ (i', o') →
        (ctx.internalDispatch i o).1 ≠ (ctx.internalDispatch i' o').1) ∧
      ((i, o) ∈ ctx.m_dispatchCache →
        ctx.internalDispatch i o = (IRGenerationContext.internalDispatchName i o, ctx)) ∧
      ((i, o) ∉ ctx.m_dispatchCache →
        (ctx.internalDispatch i o).2.m_dispatchCache = (i, o) :: ctx.m_dispatchCache) := by
  intro ctx i o
  have hmem : ∀ ctx' : IRGenerationContext, (i, o) ∈ ctx'.m_dispatchCache →
      ctx'.internalDispatch i o = (IRGenerationContext.internalDispatchName i o, ctx') := by
    intro ctx' hm
    unfold IRGenerationContext.internalDispatch
    rw [if_pos hm]
  refine ⟨?_, ?_, hmem ctx, ?_⟩
  · rw [internalDispatch_fst]
    apply hmem
    unfold IRGenerationContext.internalDispatch
    split
    · assumption
    · exact List.mem_cons_self _ _
  · intro i' o' hne heq
    rw [internalDispatch_fst, internalDispatch_fst] at heq
    obtain ⟨hi, ho⟩ := internalDispatchName_inj i o i' o' heq
    exact hne (by rw [hi, ho])
  · intro hm
    unfold IRGenerationContext.internalDispatch
    rw [if_neg hm]

/-- Witness for C9 at concrete inputs: on a fresh context the shapes (2,1)
and (1,2) get distinct dispatcher names, a second request for (2,1) returns
the same name with the context unchanged, and the first request caches the
shape. -/
theorem internalDispatch_memoized_witness :
    ((sampleCtx0.internalDispatch 2 1).2.internalDispatch 2 1 =
      ((sampleCtx0.internalDispatch 2 1).1, (sampleCtx0.internalDispatch 2 1).2)) ∧
    (sampleCtx0.internalDispatch 2 1).1 ≠ (sampleCtx0.internalDispatch 1 2).1 ∧
    (sampleCtx0.internalDispatch 2 1).2.m_dispatchCache = [(2, 1)] := by
  refine ⟨?_, ?_, ?_⟩
  · exact (internalDispatch_memoized sampleCtx0 2 1).1
  · exact (internalDispatch_memoized sampleCtx0 2 1).2.1 1 2 (by decide)
  · exact (internalDispatch_memoized sampleCtx0 2 1).2.2.2 (by decide)

end IRGen
